import Mathlib

/-!
Verification of the sequencer-batch-appended event handler
(`src/services/l1-ingestion/handlers/sequencer-batch-appended.ts`).

The TypeScript code is shallowly embedded: byte buffers become `List Nat`
(one element per byte), ethers `BigNumber` values become `Nat`, JavaScript
exceptions become `Except String`, and `null` becomes `Option.none`.
`Buffer.slice` clamps out-of-range indices (it never throws), which is
modelled by `List.drop`/`List.take`; `BigNumber.from` of an *empty* byte
slice throws ("invalid BigNumber string"), which is modelled by an
`Except.error`.  The external cryptographic/serialization primitives from
`ethers` and the external `ctcCoder` codec are abstracted as function-valued
structure parameters (`EthersPrims`, `CtcCoder`).
-/

namespace DTL

/-- Buffer.slice start stop, with clamping semantics of Node buffers. -/
def sliceBytes (calldata : List Nat) (start stop : Nat) : List Nat :=
  (calldata.drop start).take (stop - start)

/-- Big-endian interpretation of a byte sequence, as ethers
`BigNumber.from(buffer)` computes for a non-empty buffer. -/
def beBytesToNat (bytes : List Nat) : Nat :=
  bytes.foldl (fun acc b => acc * 256 + b) 0

/-- Models `BigNumber.from(calldata.slice(start, stop)).toNumber()`:
ethers throws "invalid BigNumber string" on an empty byte slice
(hexlify of an empty buffer is "0x", which `BigNumber.from` rejects). -/
def bigNumberFromSlice (calldata : List Nat) (start stop : Nat) : Except String Nat :=
  let s := sliceBytes calldata start stop
  if s.isEmpty then Except.error "invalid BigNumber string"
  else Except.ok (beBytesToNat s)

/-- Lowercase hex digit for a value below 16. -/
def hexChar (n : Nat) : Char :=
  if n < 10 then Char.ofNat (48 + n) else Char.ofNat (87 + n)

/-- Two-digit lowercase hex rendering of one byte. -/
def byteToHex (b : Nat) : String :=
  String.mk [hexChar (b / 16 % 16), hexChar (b % 16)]

/-- Models `toHexString` from `@eth-optimism/core-utils`: "0x"-prefixed
lowercase hex of a byte buffer. -/
def toHexString (bytes : List Nat) : String :=
  "0x" ++ String.join (bytes.map byteToHex)

/-- Signature triple `(r, s, v)`; `v` is the compact recovery indicator. -/
structure Signature where
  r : Nat
  s : Nat
  v : Nat
  deriving DecidableEq

/-- Decoded sequencer transaction fields (`DecodedSequencerBatchTransaction`). -/
structure DecodedTx where
  nonce : Nat
  gasPrice : Nat
  gasLimit : Nat
  target : String
  data : String
  sig : Signature
  deriving DecidableEq

/-- The reformatted transaction built inside `validateBatchTransaction`:
a shallow copy of the decoded fields with `to := target`, and the `sig`
and `target` fields deleted. -/
structure CanonicalTx where
  nonce : Nat
  gasPrice : Nat
  gasLimit : Nat
  «to» : String
  data : String
  deriving DecidableEq

/-- Abstract interface for the `ethers` primitives used by the validator:
`serializeTransaction`, `keccak256`, `recoverAddress`, and
`parseTransaction(...).from`. -/
structure EthersPrims where
  serializeTransaction : CanonicalTx → Signature → String
  keccak256 : String → String
  recoverAddress : String → Signature → String
  parseTransactionFrom : String → String

/-- The two recognized transaction type tags. -/
inductive TxTypeTag where
  | EIP155
  | ETH_SIGN
  deriving DecidableEq

/-- Abstract interface for the external `ctcCoder` codec of
`@eth-optimism/core-utils`: the numeric `TxType` markers and the two
decoders.  A decoder either throws (`Except.error`), returns a decoded
record (`Except.ok (some d)`), or returns null (`Except.ok none`). -/
structure CtcCoder where
  txTypeEIP155 : Nat
  txTypeEthSign : Nat
  eip155Decode : List Nat → Except String (Option DecodedTx)
  ethSignDecode : List Nat → Except String (Option DecodedTx)

/-- `validateBatchTransaction(type, decoded)`.  The TypeScript returns a
boolean but dereferences `decoded.sig.v` right after the null-type check,
so a call with a non-null `type` and a null `decoded` throws a TypeError;
the result type is therefore `Except String Bool`. -/
def validateBatchTransaction (prims : EthersPrims)
    (type : Option TxTypeTag) (decoded : Option DecodedTx) :
    Except String Bool :=
  match type with
  | none => Except.ok false
  | some t =>
    match decoded with
    | none => Except.error "TypeError: cannot read sig of null"
    | some d =>
      if d.sig.v ≠ 1 ∧ d.sig.v ≠ 0 then Except.ok false
      else if t = TxTypeTag.EIP155 then
        let reformattedTx : CanonicalTx :=
          { nonce := d.nonce, gasPrice := d.gasPrice, gasLimit := d.gasLimit,
            «to» := d.target, data := d.data }
        let reformattedSig : Signature := { d.sig with v := d.sig.v + (35 + 2 * 10) }
        let rawTx := prims.serializeTransaction reformattedTx reformattedSig
        let msgHash := prims.keccak256 rawTx
        let recoveredAddress := prims.recoverAddress msgHash reformattedSig
        let parsedTxFrom := prims.parseTransactionFrom rawTx
        Except.ok (recoveredAddress == parsedTxFrom)
      else Except.ok false

/-- `maybeDecodeSequencerBatchTransaction(transaction)`: reads the first
byte as a type marker, runs the matching decoder, then nulls the decoded
payload when validation returns false.  The whole body sits in a
try/catch that swallows every exception, so the function is total; `type`
is assigned *before* the decoder runs, so a decode failure keeps the
recognized tag.  Returns `(decoded, type)`. -/
def maybeDecodeSequencerBatchTransaction (prims : EthersPrims) (coder : CtcCoder)
    (transaction : List Nat) : Option DecodedTx × Option TxTypeTag :=
  match transaction with
  | [] => (none, none)
  | txType :: _ =>
    if txType = coder.txTypeEIP155 then
      match coder.eip155Decode transaction with
      | Except.error _ => (none, some TxTypeTag.EIP155)
      | Except.ok md =>
        match validateBatchTransaction prims (some TxTypeTag.EIP155) md with
        | Except.error _ => (md, some TxTypeTag.EIP155)
        | Except.ok true => (md, some TxTypeTag.EIP155)
        | Except.ok false => (none, some TxTypeTag.EIP155)
    else if txType = coder.txTypeEthSign then
      match coder.ethSignDecode transaction with
      | Except.error _ => (none, some TxTypeTag.ETH_SIGN)
      | Except.ok md =>
        match validateBatchTransaction prims (some TxTypeTag.ETH_SIGN) md with
        | Except.error _ => (md, some TxTypeTag.ETH_SIGN)
        | Except.ok true => (md, some TxTypeTag.ETH_SIGN)
        | Except.ok false => (none, some TxTypeTag.ETH_SIGN)
    else (none, none)

/-- One 16-byte context block of the calldata header. -/
structure SequencerBatchContext where
  numSequencedTransactions : Nat
  numSubsequentQueueTransactions : Nat
  timestamp : Nat
  blockNumber : Nat
  deriving DecidableEq

/-- `parseSequencerBatchContext(calldata, offset)`: four big-endian reads
at `[offset, offset+3)`, `[offset+3, offset+6)`, `[offset+6, offset+11)`,
`[offset+11, offset+16)`.  Throws when a read slice is empty. -/
def parseSequencerBatchContext (calldata : List Nat) (offset : Nat) :
    Except String SequencerBatchContext :=
  match bigNumberFromSlice calldata offset (offset + 3) with
  | Except.error e => Except.error e
  | Except.ok numSequencedTransactions =>
    match bigNumberFromSlice calldata (offset + 3) (offset + 6) with
    | Except.error e => Except.error e
    | Except.ok numSubsequentQueueTransactions =>
      match bigNumberFromSlice calldata (offset + 6) (offset + 11) with
      | Except.error e => Except.error e
      | Except.ok timestamp =>
        match bigNumberFromSlice calldata (offset + 11) (offset + 16) with
        | Except.error e => Except.error e
        | Except.ok blockNumber =>
          Except.ok { numSequencedTransactions, numSubsequentQueueTransactions,
                      timestamp, blockNumber }

/-- `parseSequencerBatchTransaction(calldata, offset)`: reads the 3-byte
big-endian length prefix, then slices that many bytes.  The data slice
uses `Buffer.slice`, which clamps at the end of the buffer, so a declared
length running past the end is truncated, not an error. -/
def parseSequencerBatchTransaction (calldata : List Nat) (offset : Nat) :
    Except String (List Nat) :=
  match bigNumberFromSlice calldata offset (offset + 3) with
  | Except.error e => Except.error e
  | Except.ok transactionLength =>
    Except.ok (sliceBytes calldata (offset + 3) (offset + 3 + transactionLength))

/-- The extra data assembled by `getExtraData`, consumed by `parseEvent`.
`l1TransactionData` is kept as a byte list (the TypeScript stores a hex
string and converts with `fromHexString`). -/
structure ExtraData where
  timestamp : Nat
  blockNumber : Nat
  submitter : String
  l1TransactionData : List Nat
  l1TransactionHash : String
  gasLimit : Nat
  prevTotalElements : Nat
  batchIndex : Nat
  batchSize : Nat
  batchRoot : String
  batchExtraData : String
  deriving DecidableEq

/-- Origin discriminator of a transaction entry. -/
inductive QueueOrigin where
  | sequencer
  | l1
  deriving DecidableEq

/-- A `TransactionEntry` record as pushed by `parseEvent`. -/
structure TransactionEntry where
  index : Nat
  batchIndex : Nat
  blockNumber : Nat
  timestamp : Nat
  gasLimit : Nat
  target : String
  origin : Option String
  data : String
  queueOrigin : QueueOrigin
  type : Option TxTypeTag
  queueIndex : Option Nat
  decoded : Option DecodedTx
  deriving DecidableEq

/-- The `TransactionBatchEntry` record built at the end of `parseEvent`. -/
structure TransactionBatchEntry where
  index : Nat
  root : String
  size : Nat
  prevTotalElements : Nat
  extraData : String
  blockNumber : Nat
  timestamp : Nat
  submitter : String
  l1TransactionHash : String
  deriving DecidableEq

/-- Result pair of `parseEvent`. -/
structure ParseResult where
  transactionBatchEntry : TransactionBatchEntry
  transactionEntries : List TransactionEntry
  deriving DecidableEq

/-- The inner loop `for j in [0, numSequencedTransactions)` of `parseEvent`:
pulls one length-prefixed slice per iteration from the shared cursor
`nextTxPointer`, decodes it, and pushes a sequencer-origin entry.
Arguments after `ctx` are the loop counter, then the mutable
`transactionIndex` and `nextTxPointer`.  Returns the entries pushed plus
the final `transactionIndex` and `nextTxPointer`. -/
def processSeqTxs (prims : EthersPrims) (coder : CtcCoder) (calldata : List Nat)
    (xd : ExtraData) (ctx : SequencerBatchContext) :
    Nat → Nat → Nat → Except String (List TransactionEntry × Nat × Nat)
  | 0, transactionIndex, nextTxPointer =>
    Except.ok ([], transactionIndex, nextTxPointer)
  | j + 1, transactionIndex, nextTxPointer =>
    match parseSequencerBatchTransaction calldata nextTxPointer with
    | Except.error e => Except.error e
    | Except.ok sequencerTransaction =>
      let dt := maybeDecodeSequencerBatchTransaction prims coder sequencerTransaction
      let entry : TransactionEntry :=
        { index := xd.prevTotalElements + transactionIndex,
          batchIndex := xd.batchIndex,
          blockNumber := ctx.blockNumber,
          timestamp := ctx.timestamp,
          gasLimit := xd.gasLimit,
          target := "0x4200000000000000000000000000000000000005",
          origin := none,
          data := toHexString sequencerTransaction,
          queueOrigin := QueueOrigin.sequencer,
          type := dt.2,
          queueIndex := none,
          decoded := dt.1 }
      match processSeqTxs prims coder calldata xd ctx j (transactionIndex + 1)
          (nextTxPointer + 3 + sequencerTransaction.length) with
      | Except.error e => Except.error e
      | Except.ok (rest, ti, np) => Except.ok (entry :: rest, ti, np)

/-- The inner loop `for j in [0, numSubsequentQueueTransactions)` of
`parseEvent`: pushes one provisional queue-origin entry per iteration.
Arguments after `xd` are the starting queue index, the loop counter, then
the mutable `transactionIndex` and `enqueuedCount`.  Returns the entries
pushed plus the final `transactionIndex` and `enqueuedCount`. -/
def processQueueTxs (xd : ExtraData) (startingQueueIndex : Nat) :
    Nat → Nat → Nat → List TransactionEntry × Nat × Nat
  | 0, transactionIndex, enqueuedCount => ([], transactionIndex, enqueuedCount)
  | j + 1, transactionIndex, enqueuedCount =>
    let queueIndex := startingQueueIndex + enqueuedCount
    let entry : TransactionEntry :=
      { index := xd.prevTotalElements + transactionIndex,
        batchIndex := xd.batchIndex,
        blockNumber := 0,
        timestamp := 0,
        gasLimit := 0,
        target := "0x0000000000000000000000000000000000000000",
        origin := some "0x0000000000000000000000000000000000000000",
        data := "0x",
        queueOrigin := QueueOrigin.l1,
        type := some TxTypeTag.EIP155,
        queueIndex := some queueIndex,
        decoded := none }
    let step := processQueueTxs xd startingQueueIndex j (transactionIndex + 1) (enqueuedCount + 1)
    (entry :: step.1, step.2)

/-- The outer loop `for i in [0, numContexts)` of `parseEvent`.  Arguments
after `startingQueueIndex` are the number of contexts still to process,
the context counter `i`, then the mutable `transactionIndex`,
`enqueuedCount`, and `nextTxPointer` (one shared cursor threaded through
all contexts, never reset). -/
def processContexts (prims : EthersPrims) (coder : CtcCoder) (calldata : List Nat)
    (xd : ExtraData) (startingQueueIndex : Nat) :
    Nat → Nat → Nat → Nat → Nat → Except String (List TransactionEntry)
  | 0, _, _, _, _ => Except.ok []
  | n + 1, i, transactionIndex, enqueuedCount, nextTxPointer =>
    match parseSequencerBatchContext calldata (15 + 16 * i) with
    | Except.error e => Except.error e
    | Except.ok context =>
      match processSeqTxs prims coder calldata xd context
          context.numSequencedTransactions transactionIndex nextTxPointer with
      | Except.error e => Except.error e
      | Except.ok (seqEntries, ti1, np1) =>
        match processQueueTxs xd startingQueueIndex
            context.numSubsequentQueueTransactions ti1 enqueuedCount with
        | (queueEntries, ti2, ec2) =>
          match processContexts prims coder calldata xd startingQueueIndex
              n (i + 1) ti2 ec2 np1 with
          | Except.error e => Except.error e
          | Except.ok rest => Except.ok (seqEntries ++ queueEntries ++ rest)

/-- `parseEvent(event, extraData)`.  `startingQueueIndex` is
`event.args._startingQueueIndex`; the calldata is
`fromHexString(extraData.l1TransactionData)`. -/
def parseEvent (prims : EthersPrims) (coder : CtcCoder)
    (startingQueueIndex : Nat) (xd : ExtraData) : Except String ParseResult :=
  match bigNumberFromSlice xd.l1TransactionData 12 15 with
  | Except.error e => Except.error e
  | Except.ok numContexts =>
    match processContexts prims coder xd.l1TransactionData xd startingQueueIndex
        numContexts 0 0 0 (15 + 16 * numContexts) with
    | Except.error e => Except.error e
    | Except.ok transactionEntries =>
      let transactionBatchEntry : TransactionBatchEntry :=
        { index := xd.batchIndex,
          root := xd.batchRoot,
          size := xd.batchSize,
          prevTotalElements := xd.prevTotalElements,
          extraData := xd.batchExtraData,
          blockNumber := xd.blockNumber,
          timestamp := xd.timestamp,
          submitter := xd.submitter,
          l1TransactionHash := xd.l1TransactionHash }
      Except.ok { transactionBatchEntry, transactionEntries }

/-- One call made to the entry store by `storeEvent`. -/
inductive StoreCall where
  | putTransactionBatchEntries : List TransactionBatchEntry → StoreCall
  | putTransactionEntries : List TransactionEntry → StoreCall
  | putTransactionIndexByQueueIndex : Option Nat → Nat → StoreCall
  deriving DecidableEq

/-- `storeEvent(entry, db)`, modelled as the ordered list of store calls it
performs: the two bulk puts, then one reverse-lookup put per entry whose
`queueOrigin` is `l1`. -/
def storeEvent (entry : ParseResult) : List StoreCall :=
  StoreCall.putTransactionBatchEntries [entry.transactionBatchEntry] ::
  StoreCall.putTransactionEntries entry.transactionEntries ::
  entry.transactionEntries.filterMap (fun e =>
    if e.queueOrigin = QueueOrigin.l1 then
      some (StoreCall.putTransactionIndexByQueueIndex e.queueIndex e.index)
    else none)

/-- The batch-appended event as seen by the handler: contract address,
settlement transaction hash, log index, and the decoded argument
`_startingQueueIndex`. -/
structure SequencerBatchAppendedEvent where
  address : String
  transactionHash : String
  logIndex : Nat
  startingQueueIndex : Nat
  deriving DecidableEq

/-- The settlement-layer transaction returned by `event.getTransaction()`
(`from` is spelled `sender` because `from` is reserved). -/
structure L1Transaction where
  sender : String
  hash : String
  data : List Nat
  deriving DecidableEq

/-- The block returned by `event.getBlock()`. -/
structure EventBlock where
  number : Nat
  timestamp : Nat
  deriving DecidableEq

/-- A companion `TransactionBatchAppended` event returned by `queryFilter`,
with its decoded arguments. -/
structure BatchSubmissionEvent where
  transactionHash : String
  logIndex : Nat
  prevTotalElements : Nat
  batchIndex : Nat
  batchSize : Nat
  batchRoot : String
  extraData : String
  deriving DecidableEq

/-- The Chain Provider as used by `getExtraData`: the transaction and block
of the event, and `queryFilter(filter, fromBlock, toBlock)` for the
companion event type. -/
structure ChainProvider where
  getTransaction : L1Transaction
  getBlock : EventBlock
  queryFilter : Nat → Nat → List BatchSubmissionEvent

/-- `getExtraData(event, l1RpcProvider)`: queries the companion event type
over exactly the containing block's height, selects the entry whose
transaction hash matches and whose log index is exactly one less than the
event's log index (`foundEvent.logIndex === event.logIndex - 1`, written
here as `foundEvent.logIndex + 1 = event.logIndex`, equivalent over the
integers), and throws when none exists. -/
def getExtraData (event : SequencerBatchAppendedEvent) (provider : ChainProvider) :
    Except String ExtraData :=
  match (provider.queryFilter provider.getBlock.number provider.getBlock.number).find?
      (fun foundEvent =>
        foundEvent.transactionHash == event.transactionHash &&
        foundEvent.logIndex + 1 == event.logIndex) with
  | none =>
    Except.error "A SequencerBatchAppended event does not have a corresponding TransactionBatchAppended event."
  | some foundEvent =>
    Except.ok
      { timestamp := provider.getBlock.timestamp,
        blockNumber := provider.getBlock.number,
        submitter := provider.getTransaction.sender,
        l1TransactionHash := provider.getTransaction.hash,
        l1TransactionData := provider.getTransaction.data,
        gasLimit := 8000000,
        prevTotalElements := foundEvent.prevTotalElements,
        batchIndex := foundEvent.batchIndex,
        batchSize := foundEvent.batchSize,
        batchRoot := foundEvent.batchRoot,
        batchExtraData := foundEvent.extraData }

/-- Modelled from the spec: the `EventHandlerSet` dispatcher (declared in
`../../../types`, outside this file's source) runs `getExtraData`, then
`parseEvent`, then `storeEvent` for one event, aborting on the first
failure, so a thrown error produces no parse result and no store calls. -/
def handleEvent (prims : EthersPrims) (coder : CtcCoder)
    (event : SequencerBatchAppendedEvent) (provider : ChainProvider) :
    Except String (ParseResult × List StoreCall) :=
  match getExtraData event provider with
  | Except.error e => Except.error e
  | Except.ok extraData =>
    match parseEvent prims coder event.startingQueueIndex extraData with
    | Except.error e => Except.error e
    | Except.ok entry => Except.ok (entry, storeEvent entry)

/-!
Specification-side description of the calldata layout (§4.2 of the spec),
used to state the layout claims against `parseEvent`.
-/

/-- Spec-side: `numContexts` is the big-endian 3-byte unsigned integer at
bytes `[12, 15)`. -/
def specNumContexts (calldata : List Nat) : Nat :=
  beBytesToNat (sliceBytes calldata 12 15)

/-- Spec-side: the context block at byte offset `offset` with field
subranges `[0,3)`, `[3,6)`, `[6,11)`, `[11,16)`, all big-endian. -/
def specContextAt (calldata : List Nat) (offset : Nat) : SequencerBatchContext :=
  { numSequencedTransactions := beBytesToNat (sliceBytes calldata offset (offset + 3)),
    numSubsequentQueueTransactions := beBytesToNat (sliceBytes calldata (offset + 3) (offset + 6)),
    timestamp := beBytesToNat (sliceBytes calldata (offset + 6) (offset + 11)),
    blockNumber := beBytesToNat (sliceBytes calldata (offset + 11) (offset + 16)) }

/-- Spec-side: the transaction slice whose 3-byte big-endian length prefix
sits at byte offset `off`. -/
def txSliceAt (calldata : List Nat) (off : Nat) : List Nat :=
  sliceBytes calldata (off + 3) (off + 3 + beBytesToNat (sliceBytes calldata off (off + 3)))

/-- Spec-side: the offset of the k-th length-prefixed transaction slice of
the single shared cursor chain starting at `start`; each slice advances
the cursor by 3 plus the number of bytes actually taken. -/
def txOffset (calldata : List Nat) (start : Nat) : Nat → Nat
  | 0 => start
  | k + 1 => txOffset calldata start k + 3 + (txSliceAt calldata (txOffset calldata start k)).length

/-!  Helper lemmas. -/

lemma bigNumberFromSlice_ok {calldata : List Nat} {a b v : Nat}
    (h : bigNumberFromSlice calldata a b = Except.ok v) :
    v = beBytesToNat (sliceBytes calldata a b) := by
  unfold bigNumberFromSlice at h
  simp only [] at h
  split at h
  · exact absurd h (by simp)
  · simpa using h.symm

lemma parseSequencerBatchTransaction_ok {calldata : List Nat} {p : Nat} {s : List Nat}
    (h : parseSequencerBatchTransaction calldata p = Except.ok s) :
    s = txSliceAt calldata p := by
  unfold parseSequencerBatchTransaction at h
  cases hl : bigNumberFromSlice calldata p (p + 3) with
  | error e => rw [hl] at h; exact absurd h (by simp)
  | ok v =>
    rw [hl] at h
    simp only [Except.ok.injEq] at h
    rw [← h, bigNumberFromSlice_ok hl]
    rfl

lemma parseSequencerBatchContext_ok {calldata : List Nat} {off : Nat}
    {c : SequencerBatchContext}
    (h : parseSequencerBatchContext calldata off = Except.ok c) :
    c = specContextAt calldata off := by
  unfold parseSequencerBatchContext at h
  cases h1 : bigNumberFromSlice calldata off (off + 3) with
  | error e => rw [h1] at h; exact absurd h (by simp)
  | ok v1 =>
    rw [h1] at h
    cases h2 : bigNumberFromSlice calldata (off + 3) (off + 6) with
    | error e => rw [h2] at h; exact absurd h (by simp)
    | ok v2 =>
      rw [h2] at h
      cases h3 : bigNumberFromSlice calldata (off + 6) (off + 11) with
      | error e => rw [h3] at h; exact absurd h (by simp)
      | ok v3 =>
        rw [h3] at h
        cases h4 : bigNumberFromSlice calldata (off + 11) (off + 16) with
        | error e => rw [h4] at h; exact absurd h (by simp)
        | ok v4 =>
          rw [h4] at h
          simp only [Except.ok.injEq] at h
          rw [← h]
          unfold specContextAt
          rw [bigNumberFromSlice_ok h1, bigNumberFromSlice_ok h2,
            bigNumberFromSlice_ok h3, bigNumberFromSlice_ok h4]

lemma txOffset_one (calldata : List Nat) (s : Nat) :
    txOffset calldata s 1 = s + 3 + (txSliceAt calldata s).length := rfl

lemma txOffset_add (calldata : List Nat) (s : Nat) (a : Nat) :
    ∀ b, txOffset calldata s (a + b) = txOffset calldata (txOffset calldata s a) b := by
  intro b
  induction b with
  | zero => rfl
  | succ b ih =>
    show txOffset calldata s (a + b + 1) = _
    simp only [txOffset, ih]

lemma txOffset_succ_front (calldata : List Nat) (s : Nat) (k : Nat) :
    txOffset calldata s (k + 1) = txOffset calldata (txOffset calldata s 1) k := by
  rw [← txOffset_add, Nat.add_comm]

lemma range'_glue (s a b : Nat) :
    List.range' s a ++ List.range' (s + a) b = List.range' s (a + b) := by
  have h := List.range'_append s a b 1
  rw [Nat.one_mul] at h
  rw [h, Nat.add_comm b a]

/-- Everything the queue-entry loop guarantees: final counter values, entry
count, the index chain, the queue-index chain, and the placeholder fields
of every emitted provisional entry. -/
lemma processQueueTxs_spec (xd : ExtraData) (sqi : Nat) :
    ∀ m t e,
    (processQueueTxs xd sqi m t e).2.1 = t + m ∧
    (processQueueTxs xd sqi m t e).2.2 = e + m ∧
    (processQueueTxs xd sqi m t e).1.length = m ∧
    (processQueueTxs xd sqi m t e).1.map (fun x => x.index)
      = List.range' (xd.prevTotalElements + t) m ∧
    (processQueueTxs xd sqi m t e).1.map (fun x => x.queueIndex)
      = (List.range' (sqi + e) m).map some ∧
    ∀ x ∈ (processQueueTxs xd sqi m t e).1,
      x.queueOrigin = QueueOrigin.l1 ∧ x.type = some TxTypeTag.EIP155 ∧
      x.decoded = none ∧ x.blockNumber = 0 ∧ x.timestamp = 0 ∧ x.gasLimit = 0 ∧
      x.target = "0x0000000000000000000000000000000000000000" ∧
      x.origin = some "0x0000000000000000000000000000000000000000" ∧
      x.data = "0x" ∧ x.batchIndex = xd.batchIndex := by
  intro m
  induction m with
  | zero => intro t e; simp [processQueueTxs]
  | succ j ih =>
    intro t e
    obtain ⟨h1, h2, h3, h4, h5, h6⟩ := ih (t + 1) (e + 1)
    refine ⟨?_, ?_, ?_, ?_, ?_, ?_⟩
    · simp only [processQueueTxs, h1]; omega
    · simp only [processQueueTxs, h2]; omega
    · simp only [processQueueTxs, List.length_cons, h3]
    · simp only [processQueueTxs, List.map_cons, h4, List.range'_succ, ← Nat.add_assoc]
    · simp only [processQueueTxs, List.map_cons, h5, List.range'_succ, List.map_cons,
        ← Nat.add_assoc]
    · intro x hx
      simp only [processQueueTxs, List.mem_cons] at hx
      rcases hx with hx | hx
      · subst hx; exact ⟨rfl, rfl, rfl, rfl, rfl, rfl, rfl, rfl, rfl, rfl⟩
      · exact h6 x hx

/-- Everything the sequencer-entry loop guarantees: final counter and
cursor values, entry count, the index chain, per-entry fields, and the
fact that the k-th pulled slice sits at the k-th offset of the shared
cursor chain. -/
lemma processSeqTxs_spec (prims : EthersPrims) (coder : CtcCoder) (calldata : List Nat)
    (xd : ExtraData) (ctx : SequencerBatchContext) :
    ∀ n t p es t2 p2,
    processSeqTxs prims coder calldata xd ctx n t p = Except.ok (es, t2, p2) →
    t2 = t + n ∧ p2 = txOffset calldata p n ∧ es.length = n ∧
    es.map (fun x => x.index) = List.range' (xd.prevTotalElements + t) n ∧
    (∀ x ∈ es, x.queueOrigin = QueueOrigin.sequencer ∧ x.queueIndex = none ∧
       x.blockNumber = ctx.blockNumber ∧ x.timestamp = ctx.timestamp ∧
       x.gasLimit = xd.gasLimit ∧ x.batchIndex = xd.batchIndex) ∧
    es.map (fun x => x.data)
      = (List.range n).map
          (fun j => toHexString (txSliceAt calldata (txOffset calldata p j))) := by
  intro n
  induction n with
  | zero =>
    intro t p es t2 p2 h
    simp only [processSeqTxs, Except.ok.injEq, Prod.mk.injEq] at h
    obtain ⟨he, ht, hp⟩ := h
    subst he; subst ht; subst hp
    simp [txOffset]
  | succ j ih =>
    intro t p es t2 p2 h
    simp only [processSeqTxs] at h
    split at h
    · exact absurd h (by simp)
    · rename_i s hs
      split at h
      · exact absurd h (by simp)
      · rename_i rest ti np hr
        simp only [Except.ok.injEq, Prod.mk.injEq] at h
        obtain ⟨he, ht, hp⟩ := h
        subst he; subst ht; subst hp
        obtain ⟨iht, ihp, ihlen, ihidx, ihfields, ihdata⟩ :=
          ih (t + 1) (p + 3 + s.length) rest ti np hr
        have hslice : s = txSliceAt calldata p := parseSequencerBatchTransaction_ok hs
        have hone : p + 3 + s.length = txOffset calldata p 1 := by
          rw [txOffset_one, hslice]
        refine ⟨by omega, ?_, by simp [ihlen], ?_, ?_, ?_⟩
        · rw [ihp, hone, ← txOffset_add, Nat.add_comm]
        · simp only [List.map_cons, ihidx, List.range'_succ, ← Nat.add_assoc]
        · intro x hx
          rcases List.mem_cons.mp hx with hx | hx
          · subst hx; exact ⟨rfl, rfl, rfl, rfl, rfl, rfl⟩
          · exact ihfields x hx
        · simp only [List.map_cons, ihdata, List.range_succ_eq_map, List.map_map]
          congr 1
          · rw [hslice]; rfl
          · apply List.map_congr_left
            intro a _
            simp only [Function.comp_apply, Nat.succ_eq_add_one]
            rw [hone, ← txOffset_succ_front]

/-- Everything the context loop guarantees: the global index chain, the
sequencer/queue field dichotomy, the queue-index chain across contexts,
the shared-cursor slice chain across contexts, and the per-context block
decomposition of the output. -/
lemma processContexts_spec (prims : EthersPrims) (coder : CtcCoder) (calldata : List Nat)
    (xd : ExtraData) (sqi : Nat) :
    ∀ n i t e p es,
    processContexts prims coder calldata xd sqi n i t e p = Except.ok es →
    es.map (fun x => x.index) = List.range' (xd.prevTotalElements + t) es.length ∧
    (∀ x ∈ es, x.queueOrigin = QueueOrigin.sequencer → x.queueIndex = none) ∧
    (∀ x ∈ es, x.queueOrigin = QueueOrigin.l1 →
       x.type = some TxTypeTag.EIP155 ∧ x.decoded = none ∧ x.blockNumber = 0 ∧
       x.timestamp = 0 ∧ x.gasLimit = 0 ∧
       x.target = "0x0000000000000000000000000000000000000000" ∧
       x.origin = some "0x0000000000000000000000000000000000000000" ∧ x.data = "0x") ∧
    ((es.filter (fun x => x.queueOrigin == QueueOrigin.l1)).map (fun x => x.queueIndex)
       = (List.range' (sqi + e)
           ((es.filter (fun x => x.queueOrigin == QueueOrigin.l1)).length)).map some) ∧
    ((es.filter (fun x => x.queueOrigin == QueueOrigin.sequencer)).map (fun x => x.data)
       = (List.range
           ((es.filter (fun x => x.queueOrigin == QueueOrigin.sequencer)).length)).map
           (fun k => toHexString (txSliceAt calldata (txOffset calldata p k)))) ∧
    ∃ blocks : List (List TransactionEntry × List TransactionEntry),
      es = (blocks.map (fun b => b.1 ++ b.2)).join ∧
      blocks.length = n ∧
      ∀ k (hk : k < blocks.length),
        parseSequencerBatchContext calldata (15 + 16 * (i + k))
          = Except.ok (specContextAt calldata (15 + 16 * (i + k))) ∧
        (blocks.get ⟨k, hk⟩).1.length
          = (specContextAt calldata (15 + 16 * (i + k))).numSequencedTransactions ∧
        (blocks.get ⟨k, hk⟩).2.length
          = (specContextAt calldata (15 + 16 * (i + k))).numSubsequentQueueTransactions ∧
        (∀ x ∈ (blocks.get ⟨k, hk⟩).1, x.queueOrigin = QueueOrigin.sequencer) ∧
        (∀ x ∈ (blocks.get ⟨k, hk⟩).2, x.queueOrigin = QueueOrigin.l1) := by
  intro n
  induction n with
  | zero =>
    intro i t e p es h
    simp only [processContexts, Except.ok.injEq] at h
    subst h
    refine ⟨by simp, by simp, by simp, by simp, by simp, [], by simp, rfl, ?_⟩
    intro k hk
    exact absurd hk (by simp)
  | succ n ih =>
    intro i t e p es h
    simp only [processContexts] at h
    split at h
    · exact absurd h (by simp)
    · rename_i context hc
      split at h
      · exact absurd h (by simp)
      · rename_i seqEntries ti1 np1 hseq
        rcases hqeq : processQueueTxs xd sqi context.numSubsequentQueueTransactions ti1 e
          with ⟨queueEntries, ti2, ec2⟩
        rw [hqeq] at h
        split at h
        · exact absurd h (by simp)
        · rename_i rest hrest
          simp only [Except.ok.injEq] at h
          subst h
          obtain ⟨hti1, hnp1, hslen, hsidx, hsfields, hsdata⟩ :=
            processSeqTxs_spec prims coder calldata xd context
              context.numSequencedTransactions t p seqEntries ti1 np1 hseq
          obtain ⟨hq1, hq2, hq3, hq4, hq5, hq6⟩ :=
            processQueueTxs_spec xd sqi context.numSubsequentQueueTransactions ti1 e
          rw [hqeq] at hq1 hq2 hq3 hq4 hq5 hq6
          simp only [] at hq1 hq2 hq3 hq4 hq5 hq6
          obtain ⟨ihidx, ihseqnone, ihl1, ihqchain, ihdchain, blocks1, ihjoin, ihblen, ihblocks⟩ :=
            ih (i + 1) ti2 ec2 np1 rest hrest
          have hctx : context = specContextAt calldata (15 + 16 * i) :=
            parseSequencerBatchContext_ok hc
          have hseqfilter1 :
              seqEntries.filter (fun x => x.queueOrigin == QueueOrigin.l1) = [] := by
            rw [List.filter_eq_nil_iff]
            intro x hx
            have := (hsfields x hx).1
            simp [this]
          have hseqfilter2 :
              seqEntries.filter (fun x => x.queueOrigin == QueueOrigin.sequencer)
                = seqEntries := by
            rw [List.filter_eq_self]
            intro x hx
            have := (hsfields x hx).1
            simp [this]
          have hqfilter1 :
              queueEntries.filter (fun x => x.queueOrigin == QueueOrigin.l1)
                = queueEntries := by
            rw [List.filter_eq_self]
            intro x hx
            have := (hq6 x hx).1
            simp [this]
          have hqfilter2 :
              queueEntries.filter (fun x => x.queueOrigin == QueueOrigin.sequencer)
                = [] := by
            rw [List.filter_eq_nil_iff]
            intro x hx
            have := (hq6 x hx).1
            simp [this]
          rw [← hslen] at hsidx hsdata
          rw [← hq3] at hq4 hq5
          have e1 : xd.prevTotalElements + ti1
              = xd.prevTotalElements + t + seqEntries.length := by omega
          have e2 : xd.prevTotalElements + ti2
              = xd.prevTotalElements + t + seqEntries.length
                + queueEntries.length := by omega
          have e3 : sqi + ec2 = sqi + e + queueEntries.length := by omega
          rw [e1] at hq4
          rw [e2] at ihidx
          rw [e3] at ihqchain
          refine ⟨?_, ?_, ?_, ?_, ?_, ?_⟩
          · -- global index chain
            simp only [List.map_append, List.length_append]
            have e4 : xd.prevTotalElements + t + seqEntries.length + queueEntries.length
                = xd.prevTotalElements + t + (seqEntries.length + queueEntries.length) := by
              omega
            rw [hsidx, hq4, ihidx, range'_glue, e4, range'_glue]
          · -- sequencer entries carry no queue index
            intro x hx hxo
            rcases List.mem_append.mp hx with hx | hx
            rcases List.mem_append.mp hx with hx | hx
            · exact (hsfields x hx).2.1
            · exact absurd ((hq6 x hx).1 ▸ hxo) (by simp)
            · exact ihseqnone x hx hxo
          · -- queue entries carry the placeholder fields
            intro x hx hxo
            rcases List.mem_append.mp hx with hx | hx
            rcases List.mem_append.mp hx with hx | hx
            · exact absurd ((hsfields x hx).1 ▸ hxo) (by simp)
            · obtain ⟨_, b1, b2, b3, b4, b5, b6, b7, b8, _⟩ := hq6 x hx
              exact ⟨b1, b2, b3, b4, b5, b6, b7, b8⟩
            · exact ihl1 x hx hxo
          · -- queue index chain
            simp only [List.filter_append, hseqfilter1, hqfilter1, List.nil_append,
              List.map_append, List.length_append]
            rw [hq5, ihqchain, ← List.map_append, range'_glue]
          · -- shared-cursor slice chain
            simp only [List.filter_append, hseqfilter2, hqfilter2, List.nil_append,
              List.append_nil, List.map_append, List.length_append]
            rw [hsdata, ihdchain]
            rw [List.range_add, List.map_append, List.map_map]
            congr 1
            apply List.map_congr_left
            intro k _
            simp only [Function.comp_apply]
            rw [hslen, txOffset_add, ← hnp1]
          · -- block decomposition
            refine ⟨(seqEntries, queueEntries) :: blocks1, ?_, by simp [ihblen], ?_⟩
            · simp [ihjoin]
            · intro k hk
              cases k with
              | zero =>
                simp only [List.get]
                have hi : i + 0 = i := by omega
                rw [hi]
                refine ⟨by rw [hc, hctx], ?_, ?_, ?_, ?_⟩
                · rw [hslen, hctx]
                · rw [hq3, hctx]
                · exact fun x hx => (hsfields x hx).1
                · exact fun x hx => (hq6 x hx).1
              | succ k =>
                simp only [List.length_cons] at hk
                have hk1 : k < blocks1.length := by simpa using hk
                have hi : i + (k + 1) = (i + 1) + k := by omega
                rw [hi]
                simpa using ihblocks k hk1

/-- Inversion of a successful `parseEvent`: the context count was read at
bytes `[12, 15)` and the entry list is the context-loop output started
with both counters at zero and the cursor at `15 + 16 * numContexts`. -/
lemma parseEvent_ok {prims : EthersPrims} {coder : CtcCoder} {sqi : Nat}
    {xd : ExtraData} {res : ParseResult}
    (h : parseEvent prims coder sqi xd = Except.ok res) :
    bigNumberFromSlice xd.l1TransactionData 12 15
      = Except.ok (specNumContexts xd.l1TransactionData) ∧
    processContexts prims coder xd.l1TransactionData xd sqi
      (specNumContexts xd.l1TransactionData) 0 0 0
      (15 + 16 * specNumContexts xd.l1TransactionData)
      = Except.ok res.transactionEntries := by
  unfold parseEvent at h
  split at h
  · exact absurd h (by simp)
  · rename_i nc hnc
    split at h
    · exact absurd h (by simp)
    · rename_i es hes
      simp only [Except.ok.injEq] at h
      have hv : nc = specNumContexts xd.l1TransactionData := by
        have hb := bigNumberFromSlice_ok hnc
        simpa [specNumContexts] using hb
      subst h
      rw [← hv]
      exact ⟨hnc, hes⟩

/-- Bytes of a clamped 3-byte slice when the buffer is long enough. -/
lemma sliceBytes_three {cd : List Nat} {off : Nat} (h : off + 3 ≤ cd.length) :
    sliceBytes cd off (off + 3)
      = [cd.get ⟨off, by omega⟩, cd.get ⟨off + 1, by omega⟩, cd.get ⟨off + 2, by omega⟩] := by
  unfold sliceBytes
  have e3 : off + 3 - off = 3 := by omega
  rw [e3]
  have h0 : off < cd.length := by omega
  have h1 : off + 1 < cd.length := by omega
  have h2 : off + 2 < cd.length := by omega
  rw [List.drop_eq_getElem_cons h0, List.drop_eq_getElem_cons h1,
    List.drop_eq_getElem_cons h2]
  rfl

/-- C1: for every batch-appended event whose calldata parses and whose
entry count equals the companion event's `batchSize`, the `index` values
of the `TransactionEntry` list produced by `parseEvent` are exactly the
contiguous range `[prevTotalElements, prevTotalElements + batchSize)`, in
order, with no gaps and no duplicates. -/
theorem claim_C1 (prims : EthersPrims) (coder : CtcCoder) (sqi : Nat) (xd : ExtraData)
    (res : ParseResult)
    (hok : parseEvent prims coder sqi xd = Except.ok res)
    (hsize : res.transactionEntries.length = xd.batchSize) :
    res.transactionEntries.map (fun x => x.index)
      = List.range' xd.prevTotalElements xd.batchSize ∧
    (res.transactionEntries.map (fun x => x.index)).Nodup ∧
    ∀ m, m ∈ res.transactionEntries.map (fun x => x.index) ↔
      xd.prevTotalElements ≤ m ∧ m < xd.prevTotalElements + xd.batchSize := by
  obtain ⟨hnc, hpc⟩ := parseEvent_ok hok
  obtain ⟨hidx, _⟩ := processContexts_spec prims coder xd.l1TransactionData xd sqi
    (specNumContexts xd.l1TransactionData) 0 0 0
    (15 + 16 * specNumContexts xd.l1TransactionData) res.transactionEntries hpc
  rw [Nat.add_zero, hsize] at hidx
  refine ⟨hidx, ?_, ?_⟩
  · rw [hidx]
    exact List.nodup_range' _ _
  · intro m
    rw [hidx]
    exact List.mem_range'_1

/-- C2: the entry list produced by `parseEvent` decomposes into one block
per context, in calldata order; each block is that context's
`numSequencedTransactions` sequencer-origin entries followed by its
`numSubsequentQueueTransactions` queue-origin entries. -/
theorem claim_C2 (prims : EthersPrims) (coder : CtcCoder) (sqi : Nat) (xd : ExtraData)
    (res : ParseResult)
    (hok : parseEvent prims coder sqi xd = Except.ok res) :
    ∃ blocks : List (List TransactionEntry × List TransactionEntry),
      res.transactionEntries = (blocks.map (fun b => b.1 ++ b.2)).join ∧
      blocks.length = specNumContexts xd.l1TransactionData ∧
      ∀ k (hk : k < blocks.length),
        (blocks.get ⟨k, hk⟩).1.length
          = (specContextAt xd.l1TransactionData (15 + 16 * k)).numSequencedTransactions ∧
        (∀ x ∈ (blocks.get ⟨k, hk⟩).1, x.queueOrigin = QueueOrigin.sequencer) ∧
        (blocks.get ⟨k, hk⟩).2.length
          = (specContextAt xd.l1TransactionData
              (15 + 16 * k)).numSubsequentQueueTransactions ∧
        (∀ x ∈ (blocks.get ⟨k, hk⟩).2, x.queueOrigin = QueueOrigin.l1) := by
  obtain ⟨hnc, hpc⟩ := parseEvent_ok hok
  obtain ⟨_, _, _, _, _, blocks, hjoin, hblen, hblocks⟩ :=
    processContexts_spec prims coder xd.l1TransactionData xd sqi
      (specNumContexts xd.l1TransactionData) 0 0 0
      (15 + 16 * specNumContexts xd.l1TransactionData) res.transactionEntries hpc
  refine ⟨blocks, hjoin, hblen, ?_⟩
  intro k hk
  obtain ⟨_, hb1, hb2, hb3, hb4⟩ := hblocks k hk
  rw [Nat.zero_add] at hb1 hb2
  exact ⟨hb1, hb3, hb2, hb4⟩

/-- C7: the decoder reads `numContexts` as the big-endian 3-byte unsigned
integer at bytes `[12, 15)`; each context block `i` is read at offset
`15 + 16 * i` with the field subranges of `specContextAt`; the
transaction slices are 3-byte-length-prefixed and consumed strictly
sequentially by one shared cursor starting at `15 + 16 * numContexts` and
advanced across all contexts, never reset per context: the k-th
sequencer-origin entry overall carries the slice at the k-th offset of
that single chain. -/
theorem claim_C7 (prims : EthersPrims) (coder : CtcCoder) (sqi : Nat) (xd : ExtraData)
    (res : ParseResult)
    (hok : parseEvent prims coder sqi xd = Except.ok res)
    (h15 : 15 ≤ xd.l1TransactionData.length) :
    specNumContexts xd.l1TransactionData
      = 65536 * xd.l1TransactionData.get ⟨12, by omega⟩
        + 256 * xd.l1TransactionData.get ⟨13, by omega⟩
        + xd.l1TransactionData.get ⟨14, by omega⟩ ∧
    bigNumberFromSlice xd.l1TransactionData 12 15
      = Except.ok (specNumContexts xd.l1TransactionData) ∧
    (∀ k, k < specNumContexts xd.l1TransactionData →
      parseSequencerBatchContext xd.l1TransactionData (15 + 16 * k)
        = Except.ok (specContextAt xd.l1TransactionData (15 + 16 * k))) ∧
    (res.transactionEntries.filter
        (fun x => x.queueOrigin == QueueOrigin.sequencer)).map (fun x => x.data)
      = (List.range ((res.transactionEntries.filter
            (fun x => x.queueOrigin == QueueOrigin.sequencer)).length)).map
          (fun k => toHexString (txSliceAt xd.l1TransactionData
            (txOffset xd.l1TransactionData
              (15 + 16 * specNumContexts xd.l1TransactionData) k))) := by
  obtain ⟨hnc, hpc⟩ := parseEvent_ok hok
  obtain ⟨_, _, _, _, hdchain, blocks, hjoin, hblen, hblocks⟩ :=
    processContexts_spec prims coder xd.l1TransactionData xd sqi
      (specNumContexts xd.l1TransactionData) 0 0 0
      (15 + 16 * specNumContexts xd.l1TransactionData) res.transactionEntries hpc
  refine ⟨?_, hnc, ?_, hdchain⟩
  · rw [specNumContexts, sliceBytes_three (by omega)]
    simp only [beBytesToNat, List.foldl]
    ring
  · intro k hk
    have hk2 : k < blocks.length := by omega
    have hctx := (hblocks k hk2).1
    rw [Nat.zero_add] at hctx
    exact hctx

/-- C9: every queue-origin entry of `parseEvent` carries the provisional
placeholder fields (`type = EIP155`, `decoded = null`, zero block number,
timestamp and gas limit, zero-address target and origin, empty data) and
the k-th queue-origin entry overall has
`queueIndex = startingQueueIndex + k`; sequencer-origin entries have
`queueIndex = null`; and `storeEvent` records a reverse lookup from
`queueIndex` to the assigned global `index` exactly for the queue-origin
entries. -/
theorem claim_C9 (prims : EthersPrims) (coder : CtcCoder) (sqi : Nat) (xd : ExtraData)
    (res : ParseResult)
    (hok : parseEvent prims coder sqi xd = Except.ok res) :
    (∀ x ∈ res.transactionEntries, x.queueOrigin = QueueOrigin.l1 →
       x.type = some TxTypeTag.EIP155 ∧ x.decoded = none ∧ x.blockNumber = 0 ∧
       x.timestamp = 0 ∧ x.gasLimit = 0 ∧
       x.target = "0x0000000000000000000000000000000000000000" ∧
       x.origin = some "0x0000000000000000000000000000000000000000" ∧
       x.data = "0x") ∧
    (∀ x ∈ res.transactionEntries, x.queueOrigin = QueueOrigin.sequencer →
       x.queueIndex = none) ∧
    ((res.transactionEntries.filter
        (fun x => x.queueOrigin == QueueOrigin.l1)).map (fun x => x.queueIndex)
      = (List.range' sqi ((res.transactionEntries.filter
            (fun x => x.queueOrigin == QueueOrigin.l1)).length)).map some) ∧
    (∀ x ∈ res.transactionEntries, x.queueOrigin = QueueOrigin.l1 →
       StoreCall.putTransactionIndexByQueueIndex x.queueIndex x.index
         ∈ storeEvent res) ∧
    (∀ q idx, StoreCall.putTransactionIndexByQueueIndex q idx ∈ storeEvent res →
       ∃ x ∈ res.transactionEntries,
         x.queueOrigin = QueueOrigin.l1 ∧ x.queueIndex = q ∧ x.index = idx) := by
  obtain ⟨hnc, hpc⟩ := parseEvent_ok hok
  obtain ⟨_, hseqnone, hl1, hqchain, _, _⟩ :=
    processContexts_spec prims coder xd.l1TransactionData xd sqi
      (specNumContexts xd.l1TransactionData) 0 0 0
      (15 + 16 * specNumContexts xd.l1TransactionData) res.transactionEntries hpc
  rw [Nat.add_zero] at hqchain
  refine ⟨hl1, hseqnone, hqchain, ?_, ?_⟩
  · intro x hx hxo
    unfold storeEvent
    refine List.mem_cons.mpr (Or.inr (List.mem_cons.mpr (Or.inr ?_)))
    exact List.mem_filterMap.mpr ⟨x, hx, by simp [hxo]⟩
  · intro q idx hmem
    unfold storeEvent at hmem
    rcases List.mem_cons.mp hmem with hmem | hmem
    · exact absurd hmem (by simp)
    rcases List.mem_cons.mp hmem with hmem | hmem
    · exact absurd hmem (by simp)
    obtain ⟨x, hx, hfx⟩ := List.mem_filterMap.mp hmem
    by_cases hxo : x.queueOrigin = QueueOrigin.l1
    · rw [if_pos hxo] at hfx
      simp only [Option.some.injEq, StoreCall.putTransactionIndexByQueueIndex.injEq] at hfx
      exact ⟨x, hx, hxo, hfx.1, hfx.2⟩
    · rw [if_neg hxo] at hfx
      exact absurd hfx (by simp)

/-- C3: for a decoded EIP155 transaction with `sig.v` in `{0, 1}`,
`validateBatchTransaction` accepts exactly when the address recovered
from the keccak256 hash of the serialized canonical transaction (fields
with `target` renamed to `to` and the signature removed, serialized with
the signature whose `v` is increased by `35 + 2 * chainId`, chain id
fixed at 10) using that same adjusted signature equals the sender address
that re-parsing that serialization yields. -/
theorem claim_C3 (prims : EthersPrims) (d : DecodedTx)
    (hv : d.sig.v = 0 ∨ d.sig.v = 1) :
    validateBatchTransaction prims (some TxTypeTag.EIP155) (some d)
        = Except.ok true ↔
      prims.recoverAddress
          (prims.keccak256 (prims.serializeTransaction
            { nonce := d.nonce, gasPrice := d.gasPrice, gasLimit := d.gasLimit,
              «to» := d.target, data := d.data }
            { d.sig with v := d.sig.v + (35 + 2 * 10) }))
          { d.sig with v := d.sig.v + (35 + 2 * 10) }
        = prims.parseTransactionFrom (prims.serializeTransaction
            { nonce := d.nonce, gasPrice := d.gasPrice, gasLimit := d.gasLimit,
              «to» := d.target, data := d.data }
            { d.sig with v := d.sig.v + (35 + 2 * 10) }) := by
  simp only [validateBatchTransaction]
  have hcond : ¬(d.sig.v ≠ 1 ∧ d.sig.v ≠ 0) := by
    rcases hv with h | h <;> simp [h]
  simp [hcond, beq_iff_eq]

/-- C4: `validateBatchTransaction` returns false for a null type, for any
decoded transaction whose `sig.v` is neither 0 nor 1, and for every
ETH_SIGN transaction; and whenever it rejects,
`maybeDecodeSequencerBatchTransaction` nulls the decoded payload while
retaining the type tag, so an ETH_SIGN-marked slice always ends with
`type = ETH_SIGN` and `decoded = null`. -/
theorem claim_C4 (prims : EthersPrims) :
    (∀ decoded, validateBatchTransaction prims none decoded = Except.ok false) ∧
    (∀ t d, d.sig.v ≠ 0 → d.sig.v ≠ 1 →
       validateBatchTransaction prims (some t) (some d) = Except.ok false) ∧
    (∀ d, validateBatchTransaction prims (some TxTypeTag.ETH_SIGN) (some d)
       = Except.ok false) ∧
    (∀ (coder : CtcCoder) (tx : List Nat),
       tx.head? = some coder.txTypeEthSign →
       coder.txTypeEthSign ≠ coder.txTypeEIP155 →
       maybeDecodeSequencerBatchTransaction prims coder tx
         = (none, some TxTypeTag.ETH_SIGN)) ∧
    (∀ (coder : CtcCoder) (tx : List Nat) (d : DecodedTx),
       tx.head? = some coder.txTypeEIP155 →
       coder.eip155Decode tx = Except.ok (some d) →
       validateBatchTransaction prims (some TxTypeTag.EIP155) (some d)
         = Except.ok false →
       maybeDecodeSequencerBatchTransaction prims coder tx
         = (none, some TxTypeTag.EIP155)) := by
  have hEthSign : ∀ d, validateBatchTransaction prims (some TxTypeTag.ETH_SIGN) (some d)
      = Except.ok false := by
    intro d
    simp only [validateBatchTransaction]
    by_cases hc : d.sig.v ≠ 1 ∧ d.sig.v ≠ 0
    · rw [if_pos hc]
    · rw [if_neg hc, if_neg (by simp)]
  refine ⟨fun decoded => rfl, ?_, hEthSign, ?_, ?_⟩
  · intro t d h0 h1
    simp only [validateBatchTransaction]
    rw [if_pos ⟨h1, h0⟩]
  · intro coder tx hhead hne
    cases tx with
    | nil => exact absurd hhead (by simp)
    | cons b rest =>
      simp only [List.head?_cons, Option.some.injEq] at hhead
      subst hhead
      cases hdec : coder.ethSignDecode (coder.txTypeEthSign :: rest) with
      | error e => simp [maybeDecodeSequencerBatchTransaction, hne, hdec]
      | ok md =>
        cases md with
        | none =>
          simp [maybeDecodeSequencerBatchTransaction, hne, hdec, validateBatchTransaction]
        | some d => simp [maybeDecodeSequencerBatchTransaction, hne, hdec, hEthSign d]
  · intro coder tx d hhead hdec hval
    cases tx with
    | nil => exact absurd hhead (by simp)
    | cons b rest =>
      simp only [List.head?_cons, Option.some.injEq] at hhead
      subst hhead
      simp [maybeDecodeSequencerBatchTransaction, hdec, hval]

/-- C10: a call of `validateBatchTransaction` with a non-null type and a
null decoded payload throws (it dereferences `decoded.sig.v` after
checking only the type) instead of returning false; the surrounding
try/catch of `maybeDecodeSequencerBatchTransaction` swallows the
exception, so the pipeline sees `(decoded = null, type = tag)` rather
than a fault. -/
theorem claim_C10 (prims : EthersPrims) :
    (∀ t, ∃ e, validateBatchTransaction prims (some t) none = Except.error e) ∧
    (∀ t b, validateBatchTransaction prims (some t) none ≠ Except.ok b) ∧
    (∀ (coder : CtcCoder) (tx : List Nat),
       tx.head? = some coder.txTypeEIP155 →
       coder.eip155Decode tx = Except.ok none →
       maybeDecodeSequencerBatchTransaction prims coder tx
         = (none, some TxTypeTag.EIP155)) := by
  refine ⟨fun t => ⟨_, rfl⟩, fun t b => by simp [validateBatchTransaction], ?_⟩
  intro coder tx hhead hdec
  cases tx with
  | nil => exact absurd hhead (by simp)
  | cons b rest =>
    simp only [List.head?_cons, Option.some.injEq] at hhead
    subst hhead
    simp [maybeDecodeSequencerBatchTransaction, hdec, validateBatchTransaction]

/-- C6 (amended): an empty slice or a first byte that is neither
recognized marker yields `(decoded = null, type = null)` without raising;
a structural decode failure after the marker is recognized also does not
raise but retains the recognized type tag with `decoded = null`. -/
theorem claim_C6_amended (prims : EthersPrims) (coder : CtcCoder) :
    (maybeDecodeSequencerBatchTransaction prims coder [] = (none, none)) ∧
    (∀ (b : Nat) (rest : List Nat), b ≠ coder.txTypeEIP155 → b ≠ coder.txTypeEthSign →
       maybeDecodeSequencerBatchTransaction prims coder (b :: rest) = (none, none)) ∧
    (∀ (tx : List Nat) (e : String),
       tx.head? = some coder.txTypeEIP155 →
       coder.eip155Decode tx = Except.error e →
       maybeDecodeSequencerBatchTransaction prims coder tx
         = (none, some TxTypeTag.EIP155)) ∧
    (∀ (tx : List Nat) (e : String),
       tx.head? = some coder.txTypeEthSign →
       coder.txTypeEthSign ≠ coder.txTypeEIP155 →
       coder.ethSignDecode tx = Except.error e →
       maybeDecodeSequencerBatchTransaction prims coder tx
         = (none, some TxTypeTag.ETH_SIGN)) := by
  refine ⟨rfl, ?_, ?_, ?_⟩
  · intro b rest h1 h2
    simp [maybeDecodeSequencerBatchTransaction, h1, h2]
  · intro tx e hhead hdec
    cases tx with
    | nil => exact absurd hhead (by simp)
    | cons b rest =>
      simp only [List.head?_cons, Option.some.injEq] at hhead
      subst hhead
      simp [maybeDecodeSequencerBatchTransaction, hdec]
  · intro tx e hhead hne hdec
    cases tx with
    | nil => exact absurd hhead (by simp)
    | cons b rest =>
      simp only [List.head?_cons, Option.some.injEq] at hhead
      subst hhead
      simp [maybeDecodeSequencerBatchTransaction, hne, hdec]

/-- C5 (amended): when a transaction slice's declared 3-byte length
exceeds the number of remaining calldata bytes,
`parseSequencerBatchTransaction` does not fail: it silently truncates the
slice to the bytes that remain after the length prefix. -/
theorem claim_C5_amended (calldata : List Nat) (offset len : Nat)
    (hlen : bigNumberFromSlice calldata offset (offset + 3) = Except.ok len)
    (hshort : calldata.length ≤ offset + 3 + len) :
    parseSequencerBatchTransaction calldata offset
      = Except.ok (calldata.drop (offset + 3)) ∧
    (calldata.drop (offset + 3)).length ≤ len := by
  have htake : (List.drop (offset + 3) calldata).length
      ≤ offset + 3 + len - (offset + 3) := by
    rw [List.length_drop]
    omega
  have h2 : sliceBytes calldata (offset + 3) (offset + 3 + len)
      = List.drop (offset + 3) calldata := List.take_of_length_le htake
  constructor
  · unfold parseSequencerBatchTransaction
    rw [hlen]
    show Except.ok (sliceBytes calldata (offset + 3) (offset + 3 + len))
      = Except.ok (List.drop (offset + 3) calldata)
    rw [h2]
  · rw [List.length_drop]
    omega

/-- C8: `getExtraData` queries the companion event type only over the
containing block's height; it succeeds exactly when some returned event
matches the transaction hash with a log index one less than the event's;
and when the lookup finds no match the whole handling of the event fails
with an error, so no entries are emitted and no store calls are made. -/
theorem claim_C8 (ev : SequencerBatchAppendedEvent) (p1 : ChainProvider) :
    (∀ p2 : ChainProvider, p1.getTransaction = p2.getTransaction →
       p1.getBlock = p2.getBlock →
       p1.queryFilter p1.getBlock.number p1.getBlock.number
         = p2.queryFilter p2.getBlock.number p2.getBlock.number →
       getExtraData ev p1 = getExtraData ev p2) ∧
    ((∃ xd, getExtraData ev p1 = Except.ok xd) ↔
       ∃ fe ∈ p1.queryFilter p1.getBlock.number p1.getBlock.number,
         fe.transactionHash = ev.transactionHash ∧ fe.logIndex + 1 = ev.logIndex) ∧
    (∀ (prims : EthersPrims) (coder : CtcCoder),
       (p1.queryFilter p1.getBlock.number p1.getBlock.number).find?
           (fun fe => fe.transactionHash == ev.transactionHash &&
             fe.logIndex + 1 == ev.logIndex) = none →
       ∃ e, handleEvent prims coder ev p1 = Except.error e) := by
  refine ⟨?_, ?_, ?_⟩
  · intro p2 htx hblk hq
    unfold getExtraData
    rw [htx, hq, hblk]
  · cases hfind : (p1.queryFilter p1.getBlock.number p1.getBlock.number).find?
        (fun fe => fe.transactionHash == ev.transactionHash &&
          fe.logIndex + 1 == ev.logIndex) with
    | none =>
      constructor
      · rintro ⟨xd, hxd⟩
        unfold getExtraData at hxd
        rw [hfind] at hxd
        exact absurd hxd (by simp)
      · rintro ⟨fe, hmem, h1, h2⟩
        have hnone := List.find?_eq_none.mp hfind fe hmem
        simp [h1, h2] at hnone
    | some fe =>
      constructor
      · intro _
        refine ⟨fe, List.mem_of_find?_eq_some hfind, ?_⟩
        have hp := List.find?_some hfind
        simpa [Bool.and_eq_true, beq_iff_eq] using hp
      · intro _
        exact ⟨{ timestamp := p1.getBlock.timestamp, blockNumber := p1.getBlock.number,
                 submitter := p1.getTransaction.sender,
                 l1TransactionHash := p1.getTransaction.hash,
                 l1TransactionData := p1.getTransaction.data, gasLimit := 8000000,
                 prevTotalElements := fe.prevTotalElements, batchIndex := fe.batchIndex,
                 batchSize := fe.batchSize, batchRoot := fe.batchRoot,
                 batchExtraData := fe.extraData },
               by unfold getExtraData; rw [hfind]⟩
  · intro prims coder hfind
    unfold handleEvent getExtraData
    rw [hfind]
    exact ⟨_, rfl⟩

/-!
Concrete instances used to evaluate the theorems on executable inputs.
-/

/-- Concrete ethers primitives for evaluation. -/
def prims0 : EthersPrims :=
  { serializeTransaction := fun _ _ => "0xserialized",
    keccak256 := fun s => s,
    recoverAddress := fun _ _ => "0xabc",
    parseTransactionFrom := fun _ => "0xabc" }

/-- Concrete codec whose decoders always throw, with the numeric markers
of the external enum (EIP155 = 0, EthSign = 1). -/
def coderFail : CtcCoder :=
  { txTypeEIP155 := 0, txTypeEthSign := 1,
    eip155Decode := fun _ => Except.error "decode failure",
    ethSignDecode := fun _ => Except.error "decode failure" }

/-- A decoded transaction with a compact recovery indicator of 0. -/
def dtx0 : DecodedTx :=
  { nonce := 0, gasPrice := 1, gasLimit := 2, target := "0xdead", data := "0xbeef",
    sig := { r := 3, s := 4, v := 0 } }

/-- The same decoded transaction with `v = 5`, outside `{0, 1}`. -/
def dtx5 : DecodedTx :=
  { nonce := 0, gasPrice := 1, gasLimit := 2, target := "0xdead", data := "0xbeef",
    sig := { r := 3, s := 4, v := 5 } }

/-- Concrete codec whose decoders return a transaction that validation
rejects. -/
def coderReject : CtcCoder :=
  { txTypeEIP155 := 0, txTypeEthSign := 1,
    eip155Decode := fun _ => Except.ok (some dtx5),
    ethSignDecode := fun _ => Except.ok (some dtx5) }

/-- Concrete codec whose decoders return null without throwing. -/
def coderNull : CtcCoder :=
  { txTypeEIP155 := 0, txTypeEthSign := 1,
    eip155Decode := fun _ => Except.ok none,
    ethSignDecode := fun _ => Except.ok none }

/-- Calldata with one context of two sequencer and one queue transaction:
reserved header, `numContexts = 1`, context
`{numSequenced = 2, numQueued = 1, timestamp = 100, blockNumber = 5}`,
then two length-prefixed slices. -/
def cdW : List Nat :=
  [0, 0, 0, 0, 0, 0, 0, 0, 0, 0, 0, 0] ++ [0, 0, 1]
  ++ [0, 0, 2, 0, 0, 1, 0, 0, 0, 0, 100, 0, 0, 0, 0, 5]
  ++ [0, 0, 1, 7] ++ [0, 0, 2, 0, 9]

/-- Batch metadata for `cdW`: `prevTotalElements = 10`, `batchSize = 3`. -/
def xdW : ExtraData :=
  { timestamp := 21, blockNumber := 43, submitter := "0xsub",
    l1TransactionData := cdW, l1TransactionHash := "0xhash", gasLimit := 8000000,
    prevTotalElements := 10, batchIndex := 2, batchSize := 3,
    batchRoot := "0xroot", batchExtraData := "0x" }

/-- The parse result of `parseEvent` on `xdW`. -/
def resW : ParseResult :=
  match parseEvent prims0 coderFail 3 xdW with
  | Except.ok r => r
  | Except.error _ =>
    { transactionBatchEntry :=
        { index := 0, root := "", size := 0, prevTotalElements := 0, extraData := "",
          blockNumber := 0, timestamp := 0, submitter := "", l1TransactionHash := "" },
      transactionEntries := [] }

/-- Calldata whose single transaction slice declares length 5 but is
followed by only two bytes. -/
def cdT : List Nat :=
  [0, 0, 0, 0, 0, 0, 0, 0, 0, 0, 0, 0] ++ [0, 0, 1]
  ++ [0, 0, 1, 0, 0, 0, 0, 0, 0, 0, 0, 0, 0, 0, 0, 0]
  ++ [0, 0, 5, 170, 187]

/-- Batch metadata for `cdT`. -/
def xdT : ExtraData :=
  { timestamp := 21, blockNumber := 43, submitter := "0xsub",
    l1TransactionData := cdT, l1TransactionHash := "0xhash", gasLimit := 8000000,
    prevTotalElements := 10, batchIndex := 2, batchSize := 1,
    batchRoot := "0xroot", batchExtraData := "0x" }

/-- A concrete batch-appended event. -/
def evW : SequencerBatchAppendedEvent :=
  { address := "0xctc", transactionHash := "0xtxh", logIndex := 1,
    startingQueueIndex := 0 }

/-- A provider whose companion-event query returns no events. -/
def provEmpty : ChainProvider :=
  { getTransaction := { sender := "0xs", hash := "0xtxh", data := [] },
    getBlock := { number := 7, timestamp := 9 },
    queryFilter := fun _ _ => [] }

/-- C5 (counterexample): on `cdT` the slice's declared length 5 exceeds
the two remaining bytes, yet the slice parser returns the truncated bytes
without an error and the whole batch decodes successfully, the entry
carrying only the available bytes — the claimed fatal decode failure does
not occur. -/
theorem claim_C5_counterexample :
    parseSequencerBatchTransaction cdT 31 = Except.ok [170, 187] ∧
    (parseEvent prims0 coderFail 3 xdT).toOption.map
        (fun r => r.transactionEntries.map (fun x => x.data)) = some ["0xaabb"] := by
  constructor
  · rfl
  · decide

/-- C6 (counterexample): a slice whose first byte is the EIP155 marker
but whose structural decode throws yields `(null, EIP155)`, not the
claimed `(null, null)` — the recognized type tag is retained. -/
theorem claim_C6_counterexample :
    maybeDecodeSequencerBatchTransaction prims0 coderFail [0]
      = (none, some TxTypeTag.EIP155) ∧
    maybeDecodeSequencerBatchTransaction prims0 coderFail [0]
      ≠ ((none : Option DecodedTx), (none : Option TxTypeTag)) := by
  constructor
  · rfl
  · decide

/-- Witness for C1 at the concrete batch `xdW`. -/
theorem claim_C1_witness :
    resW.transactionEntries.length = xdW.batchSize ∧
    resW.transactionEntries.map (fun x => x.index)
      = List.range' xdW.prevTotalElements xdW.batchSize :=
  ⟨rfl, (claim_C1 prims0 coderFail 3 xdW resW rfl rfl).1⟩

/-- Witness for C2 at the concrete batch `xdW`. -/
theorem claim_C2_witness :
    ∃ blocks : List (List TransactionEntry × List TransactionEntry),
      resW.transactionEntries = (blocks.map (fun b => b.1 ++ b.2)).join ∧
      blocks.length = specNumContexts xdW.l1TransactionData ∧
      ∀ k (hk : k < blocks.length),
        (blocks.get ⟨k, hk⟩).1.length
          = (specContextAt xdW.l1TransactionData
              (15 + 16 * k)).numSequencedTransactions ∧
        (∀ x ∈ (blocks.get ⟨k, hk⟩).1, x.queueOrigin = QueueOrigin.sequencer) ∧
        (blocks.get ⟨k, hk⟩).2.length
          = (specContextAt xdW.l1TransactionData
              (15 + 16 * k)).numSubsequentQueueTransactions ∧
        (∀ x ∈ (blocks.get ⟨k, hk⟩).2, x.queueOrigin = QueueOrigin.l1) :=
  claim_C2 prims0 coderFail 3 xdW resW rfl

/-- Witness for C3 at the concrete transaction `dtx0`. -/
theorem claim_C3_witness :
    (dtx0.sig.v = 0 ∨ dtx0.sig.v = 1) ∧
    (validateBatchTransaction prims0 (some TxTypeTag.EIP155) (some dtx0)
        = Except.ok true ↔
      prims0.recoverAddress
          (prims0.keccak256 (prims0.serializeTransaction
            { nonce := dtx0.nonce, gasPrice := dtx0.gasPrice,
              gasLimit := dtx0.gasLimit, «to» := dtx0.target, data := dtx0.data }
            { dtx0.sig with v := dtx0.sig.v + (35 + 2 * 10) }))
          { dtx0.sig with v := dtx0.sig.v + (35 + 2 * 10) }
        = prims0.parseTransactionFrom (prims0.serializeTransaction
            { nonce := dtx0.nonce, gasPrice := dtx0.gasPrice,
              gasLimit := dtx0.gasLimit, «to» := dtx0.target, data := dtx0.data }
            { dtx0.sig with v := dtx0.sig.v + (35 + 2 * 10) })) :=
  ⟨Or.inl rfl, claim_C3 prims0 dtx0 (Or.inl rfl)⟩

/-- Witness for C4 at concrete rejected transactions. -/
theorem claim_C4_witness :
    validateBatchTransaction prims0 (some TxTypeTag.EIP155) (some dtx5)
      = Except.ok false ∧
    maybeDecodeSequencerBatchTransaction prims0 coderFail [1, 9]
      = (none, some TxTypeTag.ETH_SIGN) ∧
    maybeDecodeSequencerBatchTransaction prims0 coderReject [0]
      = (none, some TxTypeTag.EIP155) :=
  ⟨(claim_C4 prims0).2.1 TxTypeTag.EIP155 dtx5 (by decide) (by decide),
   (claim_C4 prims0).2.2.2.1 coderFail [1, 9] rfl (by decide),
   (claim_C4 prims0).2.2.2.2 coderReject [0] dtx5 rfl rfl rfl⟩

/-- Witness for C5 (amended) at a concrete overlong declared length. -/
theorem claim_C5_amended_witness :
    bigNumberFromSlice [0, 0, 2, 5] 0 (0 + 3) = Except.ok 2 ∧
    parseSequencerBatchTransaction [0, 0, 2, 5] 0
      = Except.ok (([0, 0, 2, 5] : List Nat).drop (0 + 3)) :=
  ⟨rfl, (claim_C5_amended [0, 0, 2, 5] 0 2 rfl (by decide)).1⟩

/-- Witness for C6 (amended) at concrete inputs. -/
theorem claim_C6_amended_witness :
    maybeDecodeSequencerBatchTransaction prims0 coderFail [7, 8] = (none, none) ∧
    maybeDecodeSequencerBatchTransaction prims0 coderFail [0]
      = (none, some TxTypeTag.EIP155) :=
  ⟨(claim_C6_amended prims0 coderFail).2.1 7 [8] (by decide) (by decide),
   (claim_C6_amended prims0 coderFail).2.2.1 [0] "decode failure" rfl rfl⟩

/-- Witness for C7 at the concrete batch `xdW`. -/
theorem claim_C7_witness :
    bigNumberFromSlice xdW.l1TransactionData 12 15
      = Except.ok (specNumContexts xdW.l1TransactionData) :=
  (claim_C7 prims0 coderFail 3 xdW resW rfl (by decide)).2.1

/-- Witness for C8 at a provider with no companion event. -/
theorem claim_C8_witness :
    ∃ e, handleEvent prims0 coderFail evW provEmpty = Except.error e :=
  (claim_C8 evW provEmpty).2.2 prims0 coderFail rfl

/-- Witness for C9 at the concrete batch `xdW`. -/
theorem claim_C9_witness :
    (resW.transactionEntries.filter
        (fun x => x.queueOrigin == QueueOrigin.l1)).map (fun x => x.queueIndex)
      = (List.range' 3 ((resW.transactionEntries.filter
            (fun x => x.queueOrigin == QueueOrigin.l1)).length)).map some :=
  (claim_C9 prims0 coderFail 3 xdW resW rfl).2.2.1

/-- Witness for C10 at a decoder that returns null. -/
theorem claim_C10_witness :
    maybeDecodeSequencerBatchTransaction prims0 coderNull [0]
      = (none, some TxTypeTag.EIP155) :=
  (claim_C10 prims0).2.2 coderNull [0] rfl rfl

end DTL
